import Mathlib

/-!
Verification of the retry/requeue core of the postmanq outbound mail queue
(`common/post.go`): the `Timeout` profile, the `MailMessage` model, the
address-domain extraction based on `EmailRegexp`, and the delivery-outcome
resolver `ReturnMail`.

Go strings are modelled as Lean `String`s (operated on through their
character lists); `time.Duration` and `time.Time` are modelled as `Int`
(nanosecond ticks); the two `time.Now()` reads in `MailMessage.Init` become
explicit parameters.  The result channel of a `SendEvent` is modelled by
the list of values `ReturnMail` publishes on it, and the `Reset()` call on
the session's worker by a count of invocations.
-/

namespace Postmanq

/-! ## Go standard-library primitives used by `common/post.go` -/

/-- The character set of Go's `unicode.IsSpace` (Unicode `White_Space`),
used by `strings.TrimSpace`. -/
def isGoSpace (c : Char) : Bool :=
  let n := c.toNat
  n = 9 || n = 10 || n = 11 || n = 12 || n = 13 || n = 32 ||
  n = 0x85 || n = 0xA0 || n = 0x1680 ||
  (0x2000 ≤ n && n ≤ 0x200A) ||
  n = 0x2028 || n = 0x2029 || n = 0x202F || n = 0x205F || n = 0x3000

/-- `strings.TrimSpace` on a character list: drop leading and trailing
`unicode.IsSpace` characters. -/
def trimSpaceL (cs : List Char) : List Char :=
  ((cs.dropWhile isGoSpace).reverse.dropWhile isGoSpace).reverse

/-- Go's `strings.Split(s, sep)` for a one-character separator, on character
lists.  Like Go's, it returns the pieces between occurrences of the
separator and always returns at least one (possibly empty) piece. -/
def splitOnCharL (sep : Char) : List Char → List (List Char)
  | [] => [[]]
  | c :: rest =>
    if c = sep then [] :: splitOnCharL sep rest
    else
      match splitOnCharL sep rest with
      | [] => [[c]]
      | h :: t => (c :: h) :: t

/-- Go's `strconv.Atoi` (= `ParseInt(s, 10, 0)` with 64-bit `int`): an
optional sign, then one or more decimal digits and nothing else; fails on
the empty string, on any non-digit, and on values outside the `int64`
range. -/
def atoiL (cs : List Char) : Option Int :=
  match cs with
  | [] => none
  | c :: rest =>
    let (neg, digits) :=
      if c = '-' then (true, rest)
      else if c = '+' then (false, rest)
      else (false, cs)
    if digits.isEmpty then none
    else if digits.all Char.isDigit then
      let n : Nat := digits.foldl (fun acc d => acc * 10 + (d.toNat - 48)) 0
      let v : Int := if neg then -(n : Int) else (n : Int)
      if -(2 ^ 63) ≤ v ∧ v ≤ 2 ^ 63 - 1 then some v else none
    else none

/-! ## Character classes of `EmailRegexp`

The source compiles, once at process start,
`EmailRegexp = regexp.MustCompile("^[\\w\\d\\.\\_\\%\\+\\-]+@([\\w\\d\\.\\-]+\\.\\w{2,4})$")`.
In Go's RE2 syntax `\w` is the ASCII class `[0-9A-Za-z_]`. -/

/-- Go regexp `\w`: ASCII letters, digits and underscore. -/
def isWordChar (c : Char) : Bool :=
  c.isAlpha || c.isDigit || c = '_'

/-- The local-part class of `EmailRegexp`: `[\w\d\.\_\%\+\-]`. -/
def isLocalChar (c : Char) : Bool :=
  isWordChar c || c = '.' || c = '%' || c = '+' || c = '-'

/-- The domain-body class of `EmailRegexp`: `[\w\d\.\-]`. -/
def isDomainChar (c : Char) : Bool :=
  isWordChar c || c = '.' || c = '-'

/-- The top-level-label part `\w{2,4}` of `EmailRegexp`: two to four `\w`
characters. -/
def tldOk (t : List Char) : Bool :=
  2 ≤ t.length && t.length ≤ 4 && t.all isWordChar

/-- Matches `[\w\d\.\-]*\.\w{2,4}` against the whole list (the domain
pattern after its mandatory first character): either the separating dot
followed by the top-level label, or one more domain-body character and
recurse.  `||` reflects the regexp's nondeterministic choice of the
separating dot. -/
def domTail : List Char → Bool
  | [] => false
  | c :: rest => (c = '.' && tldOk rest) || (isDomainChar c && domTail rest)

/-- Matches the capture group `([\w\d\.\-]+\.\w{2,4})` of `EmailRegexp`
against the whole list. -/
def domainPat : List Char → Bool
  | [] => false
  | c :: rest => isDomainChar c && domTail rest

/-- Splits a character list at its first `'@'`, returning the parts before
and after it; `none` when no `'@'` occurs.  Since `'@'` belongs to neither
character class of `EmailRegexp`, an anchored match must place the pattern's
literal `@` at the first (and only) `'@'` of the subject, so this split is
the only candidate decomposition the regexp engine can accept. -/
def splitAtAmp : List Char → Option (List Char × List Char)
  | [] => none
  | c :: rest =>
    if c = '@' then some ([], rest)
    else (splitAtAmp rest).map (fun p => (c :: p.1, p.2))

/-! ## `common/post.go`: data model -/

/-- `Timeout` (`time.Duration` fields modelled as `Int` nanoseconds). -/
structure Timeout where
  Sleep : Int
  Waiting : Int
  Connection : Int
  Hello : Int
  Mail : Int
  Rcpt : Int
  Data : Int
  deriving DecidableEq, Repr

/-- `time.Second` in nanoseconds. -/
def timeSecond : Int := 1000000000

/-- `time.Minute` in nanoseconds. -/
def timeMinute : Int := 60 * timeSecond

/-- `Timeout.Init`: each zero-valued field receives its documented
default; nonzero fields are untouched. -/
def Timeout.Init (t : Timeout) : Timeout where
  Sleep := if t.Sleep = 0 then timeSecond else t.Sleep
  Waiting := if t.Waiting = 0 then 30 * timeSecond else t.Waiting
  Connection := if t.Connection = 0 then 5 * timeMinute else t.Connection
  Hello := if t.Hello = 0 then 5 * timeMinute else t.Hello
  Mail := if t.Mail = 0 then 5 * timeMinute else t.Mail
  Rcpt := if t.Rcpt = 0 then 5 * timeMinute else t.Rcpt
  Data := if t.Data = 0 then 10 * timeMinute else t.Data

/-- `DelayedBindingType`: the backoff ladder enumeration. -/
inductive DelayedBindingType where
  | UnknownDelayedBinding
  | SecondDelayedBinding
  | ThirtySecondDelayedBinding
  | MinuteDelayedBinding
  | FiveMinutesDelayedBinding
  | TenMinutesDelayedBinding
  | TwentyMinutesDelayedBinding
  | ThirtyMinutesDelayedBinding
  | FortyMinutesDelayedBinding
  | FiftyMinutesDelayedBinding
  | HourDelayedBinding
  | SixHoursDelayedBinding
  | DayDelayedBinding
  | NotSendDelayedBinding
  deriving DecidableEq, Repr

/-- `MailError`: message text plus numeric code (Go `int`). -/
structure MailError where
  Message : String
  Code : Int
  deriving DecidableEq, Repr

/-- `MailMessage` (`Id`, `CreatedDate` modelled as `Int` ticks). -/
structure MailMessage where
  Id : Int
  Envelope : String
  Recipient : String
  Body : String
  HostnameFrom : String
  HostnameTo : String
  CreatedDate : Int
  BindingType : DelayedBindingType
  Error : Option MailError
  deriving DecidableEq, Repr

/-! ## Address parsing -/

/-- `MailMessage.getHostnameFromEmail`: runs
`EmailRegexp.FindAllStringSubmatch(email, -1)` and, on exactly one match,
returns the capture (everything after the `'@'`); otherwise the error
`"invalid email address"`.  The anchored pattern matches the whole subject
or not at all, so there is at most one match, and the split at the unique
`'@'` (see `splitAtAmp`) is the only decomposition to check. -/
def getHostnameFromEmail (email : String) : Except String String :=
  match splitAtAmp email.data with
  | some (l, d) =>
    if !l.isEmpty && l.all isLocalChar && domainPat d then
      Except.ok (String.mk d)
    else
      Except.error "invalid email address"
  | none => Except.error "invalid email address"

/-- `MailMessage.Init`: assigns `Id` and `CreatedDate` from the two
`time.Now()` reads (passed here as `nowNano` and `nowDate`), then sets each
hostname field from the address parser when, and only when, it succeeds. -/
def MailMessage.Init (m : MailMessage) (nowNano nowDate : Int) : MailMessage :=
  let m1 := { m with Id := nowNano, CreatedDate := nowDate }
  let m2 :=
    match getHostnameFromEmail m1.Envelope with
    | Except.ok hostname => { m1 with HostnameFrom := hostname }
    | Except.error _ => m1
  match getHostnameFromEmail m2.Recipient with
  | Except.ok hostname => { m2 with HostnameTo := hostname }
  | Except.error _ => m2

/-! ## The delivery outcome resolver -/

/-- Modelled from the spec: the two verdict values published on a
`SendEvent`'s result channel (declared outside `common/post.go`):
retry-with-delay and hard-error. -/
inductive SendEventResult where
  | DelaySendEventResult
  | ErrorSendEventResult
  deriving DecidableEq, Repr

/-- Modelled from the spec: the session handle (`event.Client`) owned by a
worker; its `Worker` field carries the protocol-command state whose
`Reset()` is invoked, here recorded only by presence. -/
structure SmtpClient where
  Worker : Option Unit

/-- Modelled from the spec: the failed-attempt event (declared outside
`common/post.go`): a message, an optional session handle, and a result
channel (the channel itself is represented by the list of verdicts
`ReturnMail` writes to it). -/
structure SendEvent where
  Message : MailMessage
  Client : Option SmtpClient

/-- The error-classification step of `ReturnMail` (its lines 141–152):
split the raw error text on `" "`, try `strconv.Atoi` on the trimmed first
piece, and on success build `MailError{errorMessage, code}`. -/
def classifyError (errorMessage : String) : Option MailError :=
  let parts := splitOnCharL ' ' errorMessage.data
  match parts with
  | [] => none
  | p0 :: _ =>
    match atoiL (trimSpaceL p0) with
    | some code => some ⟨errorMessage, code⟩
    | none => none

/-- The observable outcome of one `ReturnMail` call: the message as left
by the call, how many times `event.Client.Worker.Reset()` ran, and the
verdicts written to `event.Result`. -/
structure ReturnMailOutcome where
  message : MailMessage
  resets : Nat
  published : List SendEventResult
  deriving DecidableEq, Repr

/-- The message as left by `ReturnMail`: when the raw error is non-nil and
its text classifies, the classification is attached (overwriting any prior
one); in every other case the message is untouched. -/
def returnMailMessage (event : SendEvent) (err : Option String) : MailMessage :=
  match err with
  | none => event.Message
  | some errorMessage =>
    match classifyError errorMessage with
    | some mailError => { event.Message with Error := some mailError }
    | none => event.Message

/-- `ReturnMail(event, err)`: classify a non-nil error's text and on
success attach the classification to the message; reset the session worker
when present; publish exactly one verdict — hard-error when the message
now carries an error, retry-with-delay otherwise. -/
def ReturnMail (event : SendEvent) (err : Option String) : ReturnMailOutcome :=
  let msg := returnMailMessage event err
  let resets :=
    match event.Client with
    | none => 0
    | some client => match client.Worker with
      | none => 0
      | some _ => 1
  let published :=
    match msg.Error with
    | none => [SendEventResult.DelaySendEventResult]
    | some _ => [SendEventResult.ErrorSendEventResult]
  ⟨msg, resets, published⟩

/-- Whether the event carries a session handle: a non-nil `Client` whose
`Worker` is present. -/
def hasSession (event : SendEvent) : Bool :=
  match event.Client with
  | none => false
  | some client => client.Worker.isSome

/-! ## The spec's wording, for comparison with the code

The following definitions follow the specification's words rather than the
source; they exist only to be compared with the source-derived definitions
above. -/

/-- Splitting a character list at every character satisfying `p`, keeping
empty pieces (generalisation of `splitOnCharL` to a predicate). -/
def splitOnPredL (p : Char → Bool) : List Char → List (List Char)
  | [] => [[]]
  | c :: rest =>
    if p c then [] :: splitOnPredL p rest
    else
      match splitOnPredL p rest with
      | [] => [[c]]
      | h :: t => (c :: h) :: t

/-- The whitespace-delimited tokens of a character list (Go's
`strings.Fields`): maximal runs of non-whitespace characters. -/
def fieldsL (cs : List Char) : List (List Char) :=
  (splitOnPredL isGoSpace cs).filter (fun w => !w.isEmpty)

/-- Per the spec's words: split the raw error text on whitespace, inspect
the first whitespace-delimited token and, if it parses as an integer after
trimming surrounding whitespace, produce `{message := full text, code}`. -/
def specClassify (text : String) : Option MailError :=
  match fieldsL text.data with
  | [] => none
  | t :: _ =>
    match atoiL (trimSpaceL t) with
    | some code => some ⟨text, code⟩
    | none => none

/-- A label character for the spec's reading of the domain: word
characters and hyphens. -/
def isLabelChar (c : Char) : Bool :=
  isWordChar c || c = '-'

/-- Per the spec's words: the domain is dot-separated labels ending in a
2-to-4-letter top-level label. -/
def specDomainOk (d : List Char) : Bool :=
  let labels := splitOnCharL '.' d
  decide (2 ≤ labels.length) && labels.all (fun l => !l.isEmpty) &&
  labels.all (fun l => l.all isLabelChar) &&
  (match labels.getLast? with
   | some t => (2 ≤ t.length && t.length ≤ 4) && t.all Char.isAlpha
   | none => false)

/-- Per the spec's words: the address parser succeeds exactly on
`local-part@domain` with `domain` as in `specDomainOk`, returning the
domain substring, and fails with the invalid-address condition
otherwise. -/
def specGetHostnameFromEmail (email : String) : Except String String :=
  match splitAtAmp email.data with
  | some (l, d) =>
    if !l.isEmpty && l.all isLocalChar && !d.contains '@' && specDomainOk d then
      Except.ok (String.mk d)
    else
      Except.error "invalid email address"
  | none => Except.error "invalid email address"

/-- The relational form of what `EmailRegexp` accepts, with the capture
group: `email` is a nonempty local part over the local class, an `'@'`,
and a domain `d` that is a nonempty body over the domain class, a dot, and
a 2-to-4 word-character top-level label. -/
def EmailMatches (email : String) (d : String) : Prop :=
  ∃ l p t, email.data = l ++ '@' :: d.data ∧ l ≠ [] ∧ l.all isLocalChar ∧
    d.data = p ++ '.' :: t ∧ p ≠ [] ∧ p.all isDomainChar ∧
    2 ≤ t.length ∧ t.length ≤ 4 ∧ t.all isWordChar

/-! ## Concrete fixtures used in example clauses and counterexamples -/

/-- A freshly created message: no classification, no hostnames. -/
def freshMessage : MailMessage :=
  ⟨0, "a@x.com", "b@y.org", "body", "", "", 0,
    DelayedBindingType.UnknownDelayedBinding, none⟩

/-- A failed-attempt event on a fresh message, carrying no session. -/
def freshEvent : SendEvent :=
  ⟨freshMessage, none⟩

/-- A message already carrying the classification attached by an earlier
failed attempt. -/
def classifiedMessage : MailMessage :=
  { freshMessage with Error := some ⟨"550 mailbox unavailable", 550⟩ }

/-- A failed-attempt event on `classifiedMessage`, carrying no session. -/
def classifiedEvent : SendEvent :=
  ⟨classifiedMessage, none⟩

/-! ## Helper lemmas -/

/-- `splitOnCharL` always returns at least one piece, and the first piece
is the subject's maximal separator-free prefix. -/
theorem splitOnCharL_head (sep : Char) (cs : List Char) :
    ∃ rest, splitOnCharL sep cs = cs.takeWhile (fun c => !(c == sep)) :: rest := by
  induction cs with
  | nil => exact ⟨[], rfl⟩
  | cons c cs ih =>
    obtain ⟨rest, hrest⟩ := ih
    by_cases hc : c = sep
    · subst hc
      refine ⟨splitOnCharL c cs, ?_⟩
      simp [splitOnCharL, List.takeWhile_cons]
    · refine ⟨rest, ?_⟩
      simp only [splitOnCharL, if_neg hc, hrest, List.takeWhile_cons]
      simp [hc]

/-- `splitOnCharL` never returns the empty list (so the source's
`len(parts) > 0` guard is always satisfied). -/
theorem splitOnCharL_ne_nil (sep : Char) (cs : List Char) :
    splitOnCharL sep cs ≠ [] := by
  obtain ⟨rest, hrest⟩ := splitOnCharL_head sep cs
  simp [hrest]

/-- `splitAtAmp` succeeds exactly on lists containing an `'@'`, splitting
at the first one. -/
theorem splitAtAmp_eq_some (cs l d : List Char) :
    splitAtAmp cs = some (l, d) ↔ cs = l ++ '@' :: d ∧ '@' ∉ l := by
  induction cs generalizing l with
  | nil =>
    simp [splitAtAmp]
  | cons c cs ih =>
    by_cases hc : c = '@'
    · subst hc
      simp only [splitAtAmp, if_pos rfl]
      constructor
      · intro h
        obtain ⟨hl, hd⟩ := Prod.mk.injEq _ _ _ _ ▸ Option.some.injEq _ _ ▸ h
        cases h
        simp
      · rintro ⟨h1, h2⟩
        cases l with
        | nil => simp at h1; simp [h1]
        | cons a l' =>
          simp only [List.cons_append, List.cons.injEq] at h1
          exact absurd h1.1.symm (by simp at h2; exact fun hh => h2.1 hh.symm)
    · simp only [splitAtAmp, if_neg hc]
      constructor
      · intro h
        rcases Option.map_eq_some'.mp h with ⟨⟨l', d'⟩, hsp, heq⟩
        simp only [Prod.mk.injEq] at heq
        obtain ⟨hl, hd⟩ := heq
        subst hd
        rcases (ih l').mp hsp with ⟨h1, h2⟩
        subst h1
        constructor
        · rw [← hl]; rfl
        · rw [← hl]
          simp only [List.mem_cons, not_or]
          exact ⟨fun hh => hc hh.symm, h2⟩
      · rintro ⟨h1, h2⟩
        cases l with
        | nil =>
          simp only [List.nil_append, List.cons.injEq] at h1
          exact absurd h1.1 hc
        | cons a l' =>
          simp only [List.cons_append, List.cons.injEq] at h1
          obtain ⟨ha, h1'⟩ := h1
          subst ha
          simp only [List.mem_cons, not_or] at h2
          rw [(ih l').mpr ⟨h1', h2.2⟩]
          rfl

/-- `domTail` accepts exactly the lists of shape
`body ++ '.' :: tld` with `body` over the domain class and `tld` a valid
top-level label. -/
theorem domTail_eq_true (cs : List Char) :
    domTail cs = true ↔
      ∃ p t, cs = p ++ '.' :: t ∧ p.all isDomainChar ∧ tldOk t := by
  induction cs with
  | nil =>
    simp [domTail]
  | cons c cs ih =>
    simp only [domTail, Bool.or_eq_true, Bool.and_eq_true, decide_eq_true_eq]
    constructor
    · rintro (⟨hc, ht⟩ | ⟨hc, ht⟩)
      · exact ⟨[], cs, by simp [hc], by simp, ht⟩
      · rcases ih.mp ht with ⟨p, t, h1, h2, h3⟩
        exact ⟨c :: p, t, by simp [h1], by simp [hc, h2], h3⟩
    · rintro ⟨p, t, h1, h2, h3⟩
      cases p with
      | nil =>
        simp only [List.nil_append, List.cons.injEq] at h1
        exact Or.inl ⟨h1.1, h1.2 ▸ h3⟩
      | cons a p' =>
        simp only [List.cons_append, List.cons.injEq] at h1
        obtain ⟨ha, h1'⟩ := h1
        simp only [List.all_cons, Bool.and_eq_true] at h2
        exact Or.inr ⟨ha ▸ h2.1, ih.mpr ⟨p', t, h1', h2.2, h3⟩⟩

/-- `domainPat` accepts exactly the domains of `EmailRegexp`: a nonempty
body over the domain class, a dot, and a valid top-level label. -/
theorem domainPat_eq_true (d : List Char) :
    domainPat d = true ↔
      ∃ p t, d = p ++ '.' :: t ∧ p ≠ [] ∧ p.all isDomainChar ∧ tldOk t := by
  cases d with
  | nil =>
    constructor
    · intro h; exact absurd h (by simp [domainPat])
    · rintro ⟨p, t, h1, -, -, -⟩
      exact absurd h1.symm (by simp)
  | cons c cs =>
    simp only [domainPat, Bool.and_eq_true]
    rw [domTail_eq_true]
    constructor
    · rintro ⟨hc, p, t, h1, h2, h3⟩
      exact ⟨c :: p, t, by simp [h1], by simp, by simp [hc, h2], h3⟩
    · rintro ⟨p, t, h1, h2, h3, h4⟩
      cases p with
      | nil => exact absurd rfl h2
      | cons a p' =>
        simp only [List.cons_append, List.cons.injEq] at h1
        obtain ⟨ha, h1'⟩ := h1
        simp only [List.all_cons, Bool.and_eq_true] at h3
        exact ⟨ha ▸ h3.1, p', t, h1', h3.2, h4⟩

/-- Characters of the local-part class are never `'@'`. -/
theorem not_mem_amp_of_all_local (l : List Char) (h : l.all isLocalChar) :
    '@' ∉ l := by
  intro hm
  have := List.all_eq_true.mp h '@' hm
  exact absurd this (by decide)

/-- Rebuilding a string from its character list is the identity. -/
theorem stringMkData (s : String) : String.mk s.data = s := by
  rcases s with ⟨cs⟩
  rfl

/-- `getHostnameFromEmail` succeeds with `d` exactly when the address
matches `EmailRegexp` with capture `d`. -/
theorem getHostnameFromEmail_ok_iff (email d : String) :
    getHostnameFromEmail email = Except.ok d ↔ EmailMatches email d := by
  unfold getHostnameFromEmail
  cases hs : splitAtAmp email.data with
  | none =>
    constructor
    · intro h; exact absurd h (by simp)
    · rintro ⟨l, p, t, h1, hl, hall, -, -, -, -, -, -⟩
      have h2 : splitAtAmp email.data = some (l, d.data) :=
        (splitAtAmp_eq_some _ _ _).mpr ⟨h1, not_mem_amp_of_all_local _ hall⟩
      rw [hs] at h2
      exact absurd h2 (by simp)
  | some pr =>
    obtain ⟨l, dd⟩ := pr
    obtain ⟨hdec, hnm⟩ := (splitAtAmp_eq_some email.data l dd).mp hs
    by_cases hcond : (!l.isEmpty && l.all isLocalChar && domainPat dd) = true
    · dsimp only
      rw [if_pos hcond]
      simp only [Bool.and_eq_true, Bool.not_eq_true'] at hcond
      obtain ⟨⟨hne, hall⟩, hdom⟩ := hcond
      constructor
      · intro h
        injection h with h'
        subst h'
        obtain ⟨p, t, hd1, hp, hpall, htld⟩ := (domainPat_eq_true dd).mp hdom
        simp only [tldOk, Bool.and_eq_true, decide_eq_true_eq] at htld
        exact ⟨l, p, t, hdec, by simpa using hne, hall, hd1, hp, hpall,
          htld.1.1, htld.1.2, htld.2⟩
      · rintro ⟨l2, p, t, h1, hl2, hall2, hd2, hp, hpall, ht1, ht2, htall⟩
        have h2 : splitAtAmp email.data = some (l2, d.data) :=
          (splitAtAmp_eq_some _ _ _).mpr ⟨h1, not_mem_amp_of_all_local _ hall2⟩
        rw [hs] at h2
        simp only [Option.some.injEq, Prod.mk.injEq] at h2
        rw [h2.2, stringMkData]
    · dsimp only
      rw [if_neg hcond]
      constructor
      · intro h; exact absurd h (by simp)
      · rintro ⟨l2, p, t, h1, hl2, hall2, hd2, hp, hpall, ht1, ht2, htall⟩
        have h2 : splitAtAmp email.data = some (l2, d.data) :=
          (splitAtAmp_eq_some _ _ _).mpr ⟨h1, not_mem_amp_of_all_local _ hall2⟩
        rw [hs] at h2
        simp only [Option.some.injEq, Prod.mk.injEq] at h2
        obtain ⟨hll, hdd⟩ := h2
        subst hll
        exfalso
        apply hcond
        simp only [Bool.and_eq_true, Bool.not_eq_true']
        refine ⟨⟨by simpa using hl2, hall2⟩, ?_⟩
        refine (domainPat_eq_true dd).mpr ⟨p, t, ?_, hp, hpall, ?_⟩
        · rw [hdd, hd2]
        · simp only [tldOk, Bool.and_eq_true, decide_eq_true_eq]
          exact ⟨⟨ht1, ht2⟩, htall⟩

/-- `getHostnameFromEmail` either succeeds or fails with exactly the
invalid-address message. -/
theorem getHostnameFromEmail_shape (email : String) :
    (∃ d, getHostnameFromEmail email = Except.ok d) ∨
      getHostnameFromEmail email = Except.error "invalid email address" := by
  unfold getHostnameFromEmail
  cases splitAtAmp email.data with
  | none => exact Or.inr rfl
  | some pr =>
    obtain ⟨l, dd⟩ := pr
    by_cases h : (!l.isEmpty && l.all isLocalChar && domainPat dd) = true
    · exact Or.inl ⟨String.mk dd, by dsimp only; rw [if_pos h]⟩
    · exact Or.inr (by dsimp only; rw [if_neg h])

/-! ## Claim theorems -/

/-- C1: For every failed-attempt event, `ReturnMail` publishes the
hard-error verdict on the event's result channel exactly when the message
carries a classified error after the classification step, and the
retry-with-delay verdict otherwise; exactly one verdict is written per
call. -/
theorem ReturnMail_one_verdict (event : SendEvent) (err : Option String) :
    (ReturnMail event err).published.length = 1 ∧
    ((ReturnMail event err).published = [SendEventResult.ErrorSendEventResult] ↔
      (ReturnMail event err).message.Error ≠ none) ∧
    ((ReturnMail event err).published = [SendEventResult.DelaySendEventResult] ↔
      (ReturnMail event err).message.Error = none) ∧
    (ReturnMail freshEvent (some "421 try again later")).published =
      [SendEventResult.ErrorSendEventResult] ∧
    (ReturnMail freshEvent (some "timeout")).published =
      [SendEventResult.DelaySendEventResult] ∧
    (ReturnMail freshEvent (some "timeout")).message.Error = none := by
  refine ⟨?_, ?_, ?_, rfl, rfl, rfl⟩ <;>
    cases h : (returnMailMessage event err).Error <;>
      simp [ReturnMail, h]

/-- C4: `ReturnMail` never fails: the split list is never empty (so the
first-token access is in bounds), a classification failure leaves the
message untouched, and exactly one verdict is still published, for every
event and every raw error (including nil and empty texts). -/
theorem ReturnMail_never_fails (event : SendEvent) (err : Option String) :
    (ReturnMail event err).published.length = 1 ∧
    (∀ s : String, splitOnCharL ' ' s.data ≠ []) ∧
    (∀ s : String, classifyError s = none →
      (ReturnMail event (some s)).message = event.Message) := by
  refine ⟨?_, fun s => splitOnCharL_ne_nil ' ' s.data, fun s hs => ?_⟩
  · cases h : (returnMailMessage event err).Error <;> simp [ReturnMail, h]
  · show returnMailMessage event (some s) = event.Message
    simp [returnMailMessage, hs]

/-- Witness for C4 at the event `freshEvent` and the empty raw error
text, whose classification fails. -/
theorem ReturnMail_never_fails_witness :
    (ReturnMail freshEvent (some "")).published.length = 1 ∧
    classifyError "" = none ∧
    (ReturnMail freshEvent (some "")).message = freshEvent.Message :=
  ⟨(ReturnMail_never_fails freshEvent (some "")).1, rfl,
    (ReturnMail_never_fails freshEvent (some "")).2.2 "" rfl⟩

/-- C5: `ReturnMail` resets the session's worker exactly once when the
event carries a session handle (a non-nil client with its worker), and
never otherwise — independently of the raw error and of the
classification outcome. -/
theorem ReturnMail_reset_once (event : SendEvent) (err : Option String) :
    (ReturnMail event err).resets = if hasSession event then 1 else 0 := by
  cases hc : event.Client with
  | none => simp [ReturnMail, hasSession, hc]
  | some client =>
    cases hw : client.Worker with
    | none => simp [ReturnMail, hasSession, hc, hw]
    | some u => simp [ReturnMail, hasSession, hc, hw]

/-- C9: `ReturnMail` modifies no message field other than `Error`: the
binding tier and all the other fields are preserved under both
verdicts. -/
theorem ReturnMail_frame (event : SendEvent) (err : Option String) :
    (ReturnMail event err).message.BindingType = event.Message.BindingType ∧
    (ReturnMail event err).message.Id = event.Message.Id ∧
    (ReturnMail event err).message.Envelope = event.Message.Envelope ∧
    (ReturnMail event err).message.Recipient = event.Message.Recipient ∧
    (ReturnMail event err).message.Body = event.Message.Body ∧
    (ReturnMail event err).message.HostnameFrom = event.Message.HostnameFrom ∧
    (ReturnMail event err).message.HostnameTo = event.Message.HostnameTo ∧
    (ReturnMail event err).message.CreatedDate = event.Message.CreatedDate := by
  have hm : (ReturnMail event err).message = returnMailMessage event err := rfl
  rw [hm]
  cases err with
  | none => simp [returnMailMessage]
  | some s =>
    cases h : classifyError s <;> simp [returnMailMessage, h]

/-- C10: for a nil raw error, `ReturnMail` leaves the message's `Error`
field exactly as it was, and publishes hard-error exactly when an earlier
attempt had already attached a classification, retry-with-delay
otherwise. -/
theorem ReturnMail_nil_raw_error (event : SendEvent) :
    (ReturnMail event none).message.Error = event.Message.Error ∧
    ((ReturnMail event none).published = [SendEventResult.ErrorSendEventResult] ↔
      event.Message.Error ≠ none) ∧
    ((ReturnMail event none).published = [SendEventResult.DelaySendEventResult] ↔
      event.Message.Error = none) := by
  cases h : event.Message.Error <;>
    simp [ReturnMail, returnMailMessage, h]

/-- C2 counterexample: the claimed invariant — after any `ReturnMail`
call, `Error` is non-nil iff the most recent attempt's raw error text
began with a parseable integer token — is false: on `classifiedEvent`
(whose message already carries a classification) with a nil raw error,
the prior classification is kept, not cleared. -/
theorem ReturnMail_error_invariant_fails :
    ¬ ∀ (event : SendEvent) (err : Option String),
        ((ReturnMail event err).message.Error ≠ none ↔
          ∃ s, err = some s ∧
            (atoiL (trimSpaceL (s.data.takeWhile (fun c => !(c == ' '))))).isSome) := by
  intro h
  have h2 := (h classifiedEvent none).mp (by decide)
  rcases h2 with ⟨s, hs, -⟩
  cases hs

/-- C2 amended: after `ReturnMail`, the message's `Error` is non-nil iff
the raw error text of the most recent attempt classified (its first
space-delimited piece parsed as an integer) or the message already
carried a classification; the field is either left untouched or
overwritten with the latest classification, never cleared. -/
theorem ReturnMail_error_field (event : SendEvent) (err : Option String) :
    ((ReturnMail event err).message.Error ≠ none ↔
      (∃ s, err = some s ∧ (classifyError s).isSome) ∨
        event.Message.Error ≠ none) ∧
    ((ReturnMail event err).message.Error = event.Message.Error ∨
      ∃ s, err = some s ∧
        (ReturnMail event err).message.Error = classifyError s) := by
  have hm : (ReturnMail event err).message = returnMailMessage event err := rfl
  rw [hm]
  cases err with
  | none => simp [returnMailMessage]
  | some s =>
    cases h : classifyError s with
    | none =>
      constructor
      · simp [returnMailMessage, h]
      · exact Or.inl (by simp [returnMailMessage, h])
    | some e =>
      constructor
      · simp [returnMailMessage, h]
      · exact Or.inr ⟨s, rfl, by simp [returnMailMessage, h]⟩

/-- C3 counterexample: the classifier does not split on whitespace in
general — it splits on the single space character.  On a text whose
first whitespace-delimited token is the parseable `"550"` but whose
first space-delimited piece is empty, the spec's described classifier
(`specClassify`) classifies while the code (`classifyError`) does
not. -/
theorem classifyError_whitespace_split_fails :
    specClassify " 550 mailbox unavailable" =
      some ⟨" 550 mailbox unavailable", 550⟩ ∧
    classifyError " 550 mailbox unavailable" = none := by
  constructor <;> rfl

/-- C3 amended: the classifier splits the text on the space character,
inspects the first space-delimited piece and, iff it parses as an
integer after trimming surrounding whitespace, produces the classified
error carrying the full original text and the parsed code; the empty
text and a non-parsing first piece yield no classification and no
failure. -/
theorem classifyError_space_split (s : String) :
    (classifyError s =
      match atoiL (trimSpaceL (s.data.takeWhile (fun c => !(c == ' ')))) with
      | some code => some (⟨s, code⟩ : MailError)
      | none => none) ∧
    classifyError "" = none ∧
    classifyError "550 mailbox unavailable" =
      some ⟨"550 mailbox unavailable", 550⟩ ∧
    classifyError "connection reset" = none := by
  refine ⟨?_, rfl, rfl, rfl⟩
  simp only [classifyError]
  obtain ⟨rest, hrest⟩ := splitOnCharL_head ' ' s.data
  rw [hrest]

/-- Defaulting a field is idempotent when the default is nonzero. -/
theorem initField_idem (x d : Int) (hd : d ≠ 0) :
    (if (if x = 0 then d else x) = 0 then d else if x = 0 then d else x) =
      if x = 0 then d else x := by
  by_cases hx : x = 0 <;> simp [hx, hd]

/-- A defaulted field is nonzero when the default is nonzero. -/
theorem initField_ne (x d : Int) (hd : d ≠ 0) :
    (if x = 0 then d else x) ≠ 0 := by
  by_cases hx : x = 0 <;> simp [hx, hd]

/-- C7: `Timeout.Init` gives each zero-valued duration field its
documented default (1s, 30s, 5m, 5m, 5m, 5m, 10m in nanoseconds), leaves
nonzero fields untouched, leaves every field nonzero, and is
idempotent. -/
theorem Timeout_Init_defaults (t : Timeout) :
    ((Timeout.Init t).Sleep = if t.Sleep = 0 then 1000000000 else t.Sleep) ∧
    ((Timeout.Init t).Waiting =
      if t.Waiting = 0 then 30000000000 else t.Waiting) ∧
    ((Timeout.Init t).Connection =
      if t.Connection = 0 then 300000000000 else t.Connection) ∧
    ((Timeout.Init t).Hello = if t.Hello = 0 then 300000000000 else t.Hello) ∧
    ((Timeout.Init t).Mail = if t.Mail = 0 then 300000000000 else t.Mail) ∧
    ((Timeout.Init t).Rcpt = if t.Rcpt = 0 then 300000000000 else t.Rcpt) ∧
    ((Timeout.Init t).Data = if t.Data = 0 then 600000000000 else t.Data) ∧
    (Timeout.Init t).Sleep ≠ 0 ∧ (Timeout.Init t).Waiting ≠ 0 ∧
    (Timeout.Init t).Connection ≠ 0 ∧ (Timeout.Init t).Hello ≠ 0 ∧
    (Timeout.Init t).Mail ≠ 0 ∧ (Timeout.Init t).Rcpt ≠ 0 ∧
    (Timeout.Init t).Data ≠ 0 ∧
    Timeout.Init (Timeout.Init t) = Timeout.Init t := by
  refine ⟨?_, ?_, ?_, ?_, ?_, ?_, ?_, ?_, ?_, ?_, ?_, ?_, ?_, ?_, ?_⟩
  · simp only [Timeout.Init]; norm_num [timeSecond]
  · simp only [Timeout.Init]; norm_num [timeSecond]
  · simp only [Timeout.Init]; norm_num [timeSecond, timeMinute]
  · simp only [Timeout.Init]; norm_num [timeSecond, timeMinute]
  · simp only [Timeout.Init]; norm_num [timeSecond, timeMinute]
  · simp only [Timeout.Init]; norm_num [timeSecond, timeMinute]
  · simp only [Timeout.Init]; norm_num [timeSecond, timeMinute]
  · exact initField_ne _ _ (by norm_num [timeSecond])
  · exact initField_ne _ _ (by norm_num [timeSecond])
  · exact initField_ne _ _ (by norm_num [timeSecond, timeMinute])
  · exact initField_ne _ _ (by norm_num [timeSecond, timeMinute])
  · exact initField_ne _ _ (by norm_num [timeSecond, timeMinute])
  · exact initField_ne _ _ (by norm_num [timeSecond, timeMinute])
  · exact initField_ne _ _ (by norm_num [timeSecond, timeMinute])
  · simp only [Timeout.Init, Timeout.mk.injEq]
    refine ⟨?_, ?_, ?_, ?_, ?_, ?_, ?_⟩ <;>
      exact initField_idem _ _ (by norm_num [timeSecond, timeMinute])

/-- C8: `MailMessage.Init` assigns the (nonzero) clock readings to `Id`
and `CreatedDate`, sets each hostname field from the address parser when
it succeeds, and on a parse failure leaves the (initially empty) field
empty without failing the initialization. -/
theorem MailMessage_Init_spec (m : MailMessage) (nowNano nowDate : Int)
    (hn : nowNano ≠ 0) (hd : nowDate ≠ 0)
    (hf : m.HostnameFrom = "") (ht : m.HostnameTo = "") :
    (m.Init nowNano nowDate).Id ≠ 0 ∧
    (m.Init nowNano nowDate).CreatedDate ≠ 0 ∧
    (∀ h, getHostnameFromEmail m.Envelope = Except.ok h →
      (m.Init nowNano nowDate).HostnameFrom = h) ∧
    (∀ e, getHostnameFromEmail m.Envelope = Except.error e →
      (m.Init nowNano nowDate).HostnameFrom = "") ∧
    (∀ h, getHostnameFromEmail m.Recipient = Except.ok h →
      (m.Init nowNano nowDate).HostnameTo = h) ∧
    (∀ e, getHostnameFromEmail m.Recipient = Except.error e →
      (m.Init nowNano nowDate).HostnameTo = "") := by
  simp only [MailMessage.Init]
  cases he : getHostnameFromEmail m.Envelope <;>
    cases hr : getHostnameFromEmail m.Recipient <;>
      simp_all [hn, hd, hf, ht]

/-- Witness for C8 at `freshMessage` (envelope `a@x.com`, recipient
`b@y.org`, hostnames empty) and the clock ticks 1 and 2. -/
theorem MailMessage_Init_spec_witness :
    (MailMessage.Init freshMessage 1 2).Id ≠ 0 ∧
    (MailMessage.Init freshMessage 1 2).CreatedDate ≠ 0 ∧
    (MailMessage.Init freshMessage 1 2).HostnameFrom = "x.com" ∧
    (MailMessage.Init freshMessage 1 2).HostnameTo = "y.org" := by
  have h := MailMessage_Init_spec freshMessage 1 2
    (by decide) (by decide) rfl rfl
  exact ⟨h.1, h.2.1, h.2.2.1 "x.com" rfl, h.2.2.2.2.1 "y.org" rfl⟩

/-- C6 counterexample: the address parser does not implement the spec's
pattern "dot-separated labels ending in a 2-to-4-letter top-level label":
`EmailRegexp`'s top-level label is `\w{2,4}`, which also admits digits
and underscores.  On `a@b.12` the code succeeds with domain `b.12` while
the spec's pattern (`specGetHostnameFromEmail`) has zero matches and
fails. -/
theorem getHostnameFromEmail_pattern_differs :
    getHostnameFromEmail "a@b.12" = Except.ok "b.12" ∧
    specGetHostnameFromEmail "a@b.12" =
      Except.error "invalid email address" := by
  constructor <;> rfl

/-- C6 amended: the parser succeeds with the domain substring exactly on
the addresses matched by `EmailRegexp` — a nonempty local part over word
characters, digits, dots, underscores, percent, plus and hyphen, an `@`,
and a domain made of a nonempty body over word characters, dots and
hyphens followed by a dot and a 2-to-4 word-character top-level label —
and fails with the invalid-address condition on every other string
(missing `@`, multiple `@`, no top-level label). -/
theorem getHostnameFromEmail_regexp_spec (email : String) :
    (∀ d, getHostnameFromEmail email = Except.ok d ↔ EmailMatches email d) ∧
    ((¬ ∃ d, EmailMatches email d) →
      getHostnameFromEmail email = Except.error "invalid email address") := by
  refine ⟨fun d => getHostnameFromEmail_ok_iff email d, fun hne => ?_⟩
  rcases getHostnameFromEmail_shape email with ⟨d, hd⟩ | herr
  · exact absurd ⟨d, (getHostnameFromEmail_ok_iff email d).mp hd⟩ hne
  · exact herr

/-- Witness for C6 (amended) at the valid address `a@x.com` and the
match-free string `nodomain`. -/
theorem getHostnameFromEmail_regexp_spec_witness :
    getHostnameFromEmail "a@x.com" = Except.ok "x.com" ∧
    getHostnameFromEmail "nodomain" =
      Except.error "invalid email address" := by
  constructor
  · exact ((getHostnameFromEmail_regexp_spec "a@x.com").1 "x.com").mpr
      ⟨['a'], ['x'], ['c', 'o', 'm'], by decide, by decide, by decide,
        by decide, by decide, by decide, by decide, by decide, by decide⟩
  · refine (getHostnameFromEmail_regexp_spec "nodomain").2 ?_
    rintro ⟨d, l, p, t, h1, -, -, -, -, -, -, -, -⟩
    have hmem : '@' ∈ "nodomain".data := by rw [h1]; simp
    exact absurd hmem (by decide)

end Postmanq
